import Mathlib

/-!
Shallow embedding of the `twitch-search` command-line program
(`src/main.rs`) and verification of its specification.

Strings are modelled as lists of Unicode scalar values (`List Char`),
matching Rust's `char` sequences.  Rust `str::len` counts UTF-8 bytes and
is modelled by `str_len`; Rust's formatting machinery (`Formatter::pad`)
counts characters and is modelled by `List.length`.  Case conversion
(`str::to_lowercase`) is modelled per character with `Char.toLower`
(ASCII case folding); all concrete inputs appearing in the specification
are ASCII, where the two coincide.
-/

/-- Rust strings, as their sequences of characters. -/
abbrev Str := List Char

/-- Rust `str::to_lowercase`, applied characterwise (`Char.toLower` is the
ASCII case folding). -/
def to_lowercase (s : Str) : Str := s.map Char.toLower

/-- Rust `str::len`: the length of the string in UTF-8 bytes.  This is the
unit `Table::push` uses to measure cells. -/
def str_len (s : Str) : Nat := (s.map Char.utf8Size).sum

/-- Rust `str::split` with a `char`-predicate pattern: splits at every
character satisfying `p`, keeping empty pieces between adjacent
separators and at the ends; the result is always non-empty. -/
def split_p (p : Char → Bool) : Str → List Str
  | [] => [[]]
  | c :: cs =>
    if p c then
      [] :: split_p p cs
    else
      match split_p p cs with
      | [] => [[c]]
      | t :: ts => (c :: t) :: ts

/-- Rust `str::starts_with` for a string pattern. -/
def starts_with : Str → Str → Bool
  | _, [] => true
  | [], _ :: _ => false
  | c :: cs, d :: ds => c == d && starts_with cs ds

/-- Rust `str::contains` with a string pattern: substring search.  (Rust
searches UTF-8 bytes; on valid UTF-8 byte-substring and char-substring
coincide because UTF-8 is self-synchronizing.) -/
def contains_str (hay needle : Str) : Bool :=
  match hay with
  | [] => starts_with [] needle
  | _ :: cs => starts_with hay needle || contains_str cs needle

/-- Specification-side notion of substring: `needle` occurs contiguously
inside `hay`. -/
def IsSubstring (needle hay : Str) : Prop :=
  ∃ pre post, hay = pre ++ needle ++ post

/-- One decoded stream record (`struct Entry`). -/
structure Entry where
  lang : Str
  display_name : Str
  title : Str
  viewer_count : Int
  live_duration : Str
deriving DecidableEq

/-- The whole-word / substring part of `Entry::matches` (the code after
the exclusion and language guards). -/
def Entry.search_part (e : Entry) (whole_word : Bool) (all : Bool)
    (term : List Str) : Bool :=
  if whole_word then
    (split_p (fun c => !c.isAlpha) (to_lowercase e.title)).any
      (fun tok => term.any (fun t => t == tok))
  else
    let lower_title := to_lowercase e.title
    if all then
      term.all (fun t => contains_str lower_title t)
    else
      term.any (fun t => contains_str lower_title t)

/-- `Entry::matches`: exclusion check, then language check, then the
search itself. -/
def Entry.matches (e : Entry) (whole_word : Bool) (all : Bool)
    (term : List Str) (ignored_names : List Str) (lang : Option Str) : Bool :=
  if ignored_names.contains (to_lowercase e.display_name) then
    false
  else
    match lang with
    | some l => if e.lang ≠ l then false else e.search_part whole_word all term
    | none => e.search_part whole_word all term

/-- Rust `char::is_control`: the Unicode `Cc` category,
`U+0000`–`U+001F` and `U+007F`–`U+009F`. -/
def is_control (c : Char) : Bool :=
  c.val < 32 || (127 ≤ c.val && c.val ≤ 159)

/-- `Entry::format_row`: the five display cells of one table row. -/
def Entry.format_row (e : Entry) : List Str :=
  [e.lang,
   "https://twitch.tv/".data ++ e.display_name,
   (Int.repr e.viewer_count).data ++ " viewers".data,
   e.live_duration,
   e.title.map (fun c => if is_control c then ' ' else c)]

/-- Rust `format!` with the `{:02}` spec on an `i64`: decimal digits,
zero-padded on the left (after the sign) to a minimum total width of 2. -/
def format02 (n : Int) : Str :=
  let sign : Str := if n < 0 then ['-'] else []
  let digits : Str := (Nat.repr n.natAbs).data
  sign ++ List.replicate (2 - (sign.length + digits.length)) '0' ++ digits

/-- `to_instant`.  The `chrono` timestamp parse and `Utc::now()` are
external; they are modelled by the parse result `parsed` (`none` models a
parse failure of the `started_at` string, `some val` the parsed time in
whole seconds since the epoch) and the current time `now` in whole
seconds.  `Duration::num_hours`/`num_minutes` divide the total seconds
truncating toward zero (`Int.tdiv`), and Rust `%` is `Int.tmod`. -/
def to_instant (parsed : Option Int) (now : Int) : Str :=
  match parsed with
  | some val =>
    let dur := now - val
    format02 (dur.tdiv 3600) ++ [':'] ++ format02 ((dur.tdiv 60).tmod 60)
  | none => []

/-- Column alignment (`enum Align`). -/
inductive Align where
  | Left
  | Center
  | Right
deriving DecidableEq

/-- The table renderer (`struct Table<const N: usize>`); the const
parameter `n` is the (phantom) arity, `5` in the program. -/
structure Table (n : Nat) where
  align : List Align
  widths : List Nat
  rows : List (List Str)
deriving DecidableEq

/-- `Table::new`. -/
def Table.new (n : Nat) : Table n :=
  ⟨List.replicate n Align.Left, List.replicate n 0, []⟩

/-- `Table::len`. -/
def Table.len {n : Nat} (t : Table n) : Nat := t.rows.length

/-- `Table::set_align`. -/
def Table.set_align {n : Nat} (t : Table n) (column : Nat) (a : Align) : Table n :=
  { t with align := t.align.set column a }

/-- The width update of `Table::push`:
`widths.iter_mut().zip(&row).take(k)` with `*width = max(*width, cell.len())`;
only the first `k` pairwise positions are touched. -/
def update_widths : List Nat → List Str → Nat → List Nat
  | ws, _, 0 => ws
  | [], _, _ + 1 => []
  | w :: ws, [], _ + 1 => w :: ws
  | w :: ws, c :: cs, k + 1 => max w (str_len c) :: update_widths ws cs k

/-- `Table::push`: update the running maxima of the first `n - 1` column
widths, then append the row. -/
def Table.push {n : Nat} (t : Table n) (row : List Str) : Table n :=
  { t with widths := update_widths t.widths row (n - 1), rows := t.rows ++ [row] }

/-- One padded cell, following Rust `Formatter::pad`: the width is a
minimum; a cell of at least the width is written unchanged, otherwise it
is padded with spaces to the width on the side(s) given by the alignment
(center puts the extra space on the right).  Rust's formatter counts the
cell's characters (`s.chars().count()`), i.e. `List.length` here. -/
def render_cell (a : Align) (width : Nat) (s : Str) : Str :=
  if width ≤ s.length then
    s
  else
    match a with
    | Align.Left => s ++ List.replicate (width - s.length) ' '
    | Align.Center =>
      List.replicate ((width - s.length) / 2) ' ' ++ s ++
        List.replicate ((width - s.length) - (width - s.length) / 2) ' '
    | Align.Right => List.replicate (width - s.length) ' ' ++ s

/-- One printed line of `Table::print`: the first `n - 1` cells padded per
their alignment and width, each followed by a literal `" | "`, then the
last cell unpadded. -/
def render_row (n : Nat) (align : List Align) (widths : List Nat)
    (row : List Str) : Str :=
  ((((align.zip row).zip widths).take (n - 1)).map
      (fun p => render_cell p.1.1 p.2 p.1.2 ++ " | ".data)).flatten
    ++ row.getD (n - 1) []

/-- `Table::print`, as the list of printed lines (in insertion order, with
the final widths). -/
def Table.print {n : Nat} (t : Table n) : List Str :=
  t.rows.map (render_row n t.align t.widths)

/-- The table `run` builds: `Table::<5>::new()` with columns 2 and 3
(viewer count and duration) set right-aligned. -/
def run_table_init : Table 5 :=
  ((Table.new 5).set_align 2 Align.Right).set_align 3 Align.Right

/-- Pushing a whole sequence of rows in order. -/
def push_all {n : Nat} (t : Table n) (rows : List (List Str)) : Table n :=
  rows.foldl Table.push t

/-- Specification-side column maximum: the largest `str_len` of the
`i`-th cell over the given rows (`0` for no rows). -/
def col_max (rows : List (List Str)) (i : Nat) : Nat :=
  (rows.map (fun r => str_len (r.getD i []))).foldr max 0

/-- One page of listing results, as `run`'s loop sees it: the entries
decoded from the page's `data` array and the pagination cursor extracted
from the response (`none` when `pagination.cursor` is missing or not a
string). -/
structure Page where
  entries : List Entry
  cursor : Option Str
deriving DecidableEq

/-- The inner body of `run`'s loop applied to one page's entries: push
the formatted row of every entry accepted by `Entry::matches`. -/
def process_entries (whole_word all : Bool) (term ignored : List Str)
    (lang : Option Str) (entries : List Entry) (t : Table 5) : Table 5 :=
  entries.foldl
    (fun tb e =>
      if e.matches whole_word all term ignored lang then tb.push e.format_row
      else tb)
    t

/-- The pagination loop of `run`, over a mock sequence of successful
fetch results consumed in order.  It accumulates the running total and
the table, and stops when a page's cursor is `none`, returning the number
of pages consumed, the final total and the final table.  `none` means the
loop ran off the provided pages, i.e. the program would issue a further
listing request. -/
def run_loop (whole_word all : Bool) (term ignored : List Str)
    (lang : Option Str) : List Page → Table 5 → Nat → Option (Nat × Nat × Table 5)
  | [], _, _ => none
  | p :: rest, table, total =>
    let total := total + p.entries.length
    let table := process_entries whole_word all term ignored lang p.entries table
    match p.cursor with
    | none => some (1, total, table)
    | some _ =>
      match run_loop whole_word all term ignored lang rest table total with
      | none => none
      | some (c, t, tb) => some (c + 1, t, tb)

/-- The summary line `println!("Done ({matched}/{total})")`. -/
def done_line (matched total : Nat) : Str :=
  "Done (".data ++ (Nat.repr matched).data ++ "/".data ++ (Nat.repr total).data ++ ")".data

/-- The summary line `run` prints after a loop starting from the freshly
configured table and a zero total: `matched` is `table.len()`. -/
def run_result (whole_word all : Bool) (term ignored : List Str)
    (lang : Option Str) (pages : List Page) : Option Str :=
  (run_loop whole_word all term ignored lang pages run_table_init 0).map
    (fun r => done_line r.2.2.len r.2.1)

/-- Total number of entries over a sequence of pages. -/
def total_entries (pages : List Page) : Nat :=
  (pages.map (fun p => p.entries.length)).sum

/-- Number of entries over a sequence of pages accepted by the filter. -/
def matched_entries (whole_word all : Bool) (term ignored : List Str)
    (lang : Option Str) (pages : List Page) : Nat :=
  (pages.map
      (fun p => (p.entries.filter
        (fun e => e.matches whole_word all term ignored lang)).length)).sum

/-- A `serde_json::Value`.  Numbers are modelled as the `i64` range the
program reads (`as_i64`). -/
inductive Json where
  | null
  | bool (b : Bool)
  | num (n : Int)
  | str (s : Str)
  | arr (elems : List Json)
  | obj (fields : List (Str × Json))

/-- `Value::get` with a string key: field lookup on objects, `None`
otherwise. -/
def Json.get : Json → Str → Option Json
  | Json.obj fields, key => (fields.find? (fun f => f.1 == key)).map (fun f => f.2)
  | _, _ => none

/-- `Value::as_str`. -/
def Json.as_str : Json → Option Str
  | Json.str s => some s
  | _ => none

/-- `Value::as_i64`. -/
def Json.as_i64 : Json → Option Int
  | Json.num n => some n
  | _ => none

/-- The error cases of `enum AppError` reachable in the modelled fragment:
a failed listing request, and a response without a `data` array. -/
inductive AppError where
  | FetchStreams
  | ParseJson
deriving DecidableEq

/-- `impl From<&Value> for Entry`, which `unwrap`s every field: `none`
models the panic on a missing or ill-typed field.  `parse` and `now` are
the oracles of `to_instant` (see there). -/
def entry_from (parse : Str → Option Int) (now : Int) (v : Json) : Option Entry :=
  match (v.get "language".data).bind Json.as_str,
      (v.get "user_name".data).bind Json.as_str,
      (v.get "title".data).bind Json.as_str,
      (v.get "viewer_count".data).bind Json.as_i64,
      (v.get "started_at".data).bind Json.as_str with
  | some lang, some name, some title, some vc, some st =>
    some ⟨lang, name, title, vc, to_instant (parse st) now⟩
  | _, _, _, _, _ => none

/-- The response handling of `fetch_streams`: the HTTP call is external
and modelled by its outcome (`Except.error` a transport failure,
`Except.ok` the response body).  On a body whose `data` field is missing
or not an array the function fails with `ParseJson`; otherwise it returns
the raw records of the `data` array together with the extracted
`pagination.cursor`. -/
def fetch_streams_model (resp : Except Unit Json) :
    Except AppError (List Json × Option Str) :=
  match resp with
  | Except.error _ => Except.error AppError.FetchStreams
  | Except.ok json =>
    let pagination :=
      ((json.get "pagination".data).bind (fun v => v.get "cursor".data)).bind
        Json.as_str
    match json.get "data".data with
    | some (Json.arr a) => Except.ok (a, pagination)
    | _ => Except.error AppError.ParseJson

/-- Outcome of `run`'s fetch-and-print phase over mock responses, paired
with the list of things printed to standard output before the outcome
(one `"."` per successfully fetched page, then on success the table lines
and the summary line).  `panic` models an `unwrap` failure inside
`Entry::from`; `out_of_pages` means the mock response list was exhausted
while the program would issue a further request. -/
inductive RunOutcome where
  | ok (out : List Str)
  | fail (e : AppError) (out : List Str)
  | panic (out : List Str)
  | out_of_pages (out : List Str)
deriving DecidableEq

/-- Prepend earlier output to an outcome's output. -/
def RunOutcome.prepend (pre : List Str) : RunOutcome → RunOutcome
  | RunOutcome.ok out => RunOutcome.ok (pre ++ out)
  | RunOutcome.fail e out => RunOutcome.fail e (pre ++ out)
  | RunOutcome.panic out => RunOutcome.panic (pre ++ out)
  | RunOutcome.out_of_pages out => RunOutcome.out_of_pages (pre ++ out)

/-- `run`'s pagination loop over raw mock responses, including the
decoding done by `fetch_streams` and the final `table.print()` and
summary line.  A failed or malformed page aborts with `fail` before
anything of that page is produced. -/
def run_resp (parse : Str → Option Int) (now : Int) (whole_word all : Bool)
    (term ignored : List Str) (lang : Option Str) :
    List (Except Unit Json) → Table 5 → Nat → RunOutcome
  | [], _, _ => RunOutcome.out_of_pages []
  | r :: rest, table, total =>
    match fetch_streams_model r with
    | Except.error e => RunOutcome.fail e []
    | Except.ok (records, cursor) =>
      match records.mapM (entry_from parse now) with
      | none => RunOutcome.panic []
      | some entries =>
        let total := total + entries.length
        let table := process_entries whole_word all term ignored lang entries table
        match cursor with
        | none =>
          RunOutcome.ok ([".".data] ++ table.print ++ [done_line table.len total])
        | some _ =>
          RunOutcome.prepend [".".data]
            (run_resp parse now whole_word all term ignored lang rest table total)

/-- A response on which the loop keeps going without error: the fetch
decodes to some records and a present cursor, and every record converts
to an `Entry` without panicking. -/
def mid_page_ok (parse : Str → Option Int) (now : Int)
    (r : Except Unit Json) : Prop :=
  ∃ records cursor, fetch_streams_model r = Except.ok (records, some cursor) ∧
    (records.mapM (entry_from parse now)).isSome = true

/-- A failing page in the sense of the error-policy claim: the request
itself failed, or the response's `data` field is missing or not an
array. -/
def bad_page (r : Except Unit Json) : Prop :=
  (∃ u, r = Except.error u) ∨
    (∃ json, r = Except.ok json ∧ ∀ a, json.get "data".data ≠ some (Json.arr a))

/-- Specification-side zero-padded two-digit rendering of a natural
number (used to state the duration-format claim). -/
def pad2 (n : Nat) : Str :=
  List.replicate (2 - (Nat.repr n).data.length) '0' ++ (Nat.repr n).data

/-- Helper lemmas about the string model. -/
theorem starts_with_iff (needle : Str) :
    ∀ hay : Str, starts_with hay needle = true ↔ ∃ rest, hay = needle ++ rest := by
  induction needle with
  | nil => intro hay; simp [starts_with]
  | cons d ds ih =>
    intro hay
    cases hay with
    | nil => simp [starts_with]
    | cons c cs =>
      simp only [starts_with, Bool.and_eq_true, beq_iff_eq, ih, List.cons_append,
        List.cons.injEq]
      constructor
      · rintro ⟨rfl, rest, rfl⟩
        exact ⟨rest, rfl, rfl⟩
      · rintro ⟨rest, rfl, h⟩
        exact ⟨rfl, rest, h⟩

/-- `contains_str` agrees with the substring relation. -/
theorem contains_str_iff (needle : Str) :
    ∀ hay : Str, contains_str hay needle = true ↔ IsSubstring needle hay := by
  intro hay
  induction hay with
  | nil =>
    simp only [contains_str, starts_with_iff, IsSubstring]
    constructor
    · rintro ⟨rest, h⟩
      rcases List.append_eq_nil.mp h.symm with ⟨rfl, rfl⟩
      exact ⟨[], [], rfl⟩
    · rintro ⟨pre, post, h⟩
      rcases List.append_eq_nil.mp h.symm with ⟨h1, rfl⟩
      rcases List.append_eq_nil.mp h1 with ⟨rfl, rfl⟩
      exact ⟨[], rfl⟩
  | cons a as ih =>
    simp only [contains_str, Bool.or_eq_true, starts_with_iff, ih, IsSubstring]
    constructor
    · rintro (⟨rest, h⟩ | ⟨pre, post, rfl⟩)
      · exact ⟨[], rest, by simpa using h⟩
      · exact ⟨a :: pre, post, rfl⟩
    · rintro ⟨pre, post, h⟩
      cases pre with
      | nil => exact Or.inl ⟨post, by simpa using h⟩
      | cons p ps =>
        simp only [List.cons_append, List.cons.injEq] at h
        exact Or.inr ⟨ps, post, h.2⟩

/-- Every character of a piece produced by `split_p` occurs in the input. -/
theorem mem_of_mem_split_p (p : Char → Bool) (c : Char) :
    ∀ (l : Str) (tok : Str), tok ∈ split_p p l → c ∈ tok → c ∈ l := by
  intro l
  induction l with
  | nil =>
    intro tok htok hc
    simp only [split_p, List.mem_singleton] at htok
    subst htok
    simp at hc
  | cons a as ih =>
    intro tok htok hc
    simp only [split_p] at htok
    by_cases hp : p a
    · rw [if_pos hp] at htok
      rcases List.mem_cons.mp htok with rfl | h
      · simp at hc
      · exact List.mem_cons_of_mem a (ih tok h hc)
    · rw [if_neg hp] at htok
      cases hsp : split_p p as with
      | nil =>
        rw [hsp] at htok
        simp only [List.mem_singleton] at htok
        subst htok
        simp only [List.mem_singleton] at hc
        subst hc
        exact List.mem_cons_self _ _
      | cons t ts =>
        rw [hsp] at htok
        rcases List.mem_cons.mp htok with rfl | h
        · rcases List.mem_cons.mp hc with rfl | hc'
          · exact List.mem_cons_self _ _
          · exact List.mem_cons_of_mem a
              (ih t (by rw [hsp]; exact List.mem_cons_self _ _) hc')
        · exact List.mem_cons_of_mem a
            (ih tok (by rw [hsp]; exact List.mem_cons_of_mem t h) hc)

/-- Order on `UInt32` is the order of the underlying naturals. -/
theorem uint32_le_iff (a b : UInt32) : a ≤ b ↔ a.toNat ≤ b.toNat := Iff.rfl

/-- ASCII case folding never produces an uppercase letter. -/
theorem toLower_not_isUpper (c : Char) : (c.toLower).isUpper = false := by
  rw [Char.toLower]
  by_cases h : c.toNat ≥ 65 ∧ c.toNat ≤ 90
  · rw [if_pos h]
    have hvalid : (c.toNat + 32).isValidChar := Or.inl (by omega)
    have hval : (Char.ofNat (c.toNat + 32)).val.toNat = c.toNat + 32 := by
      rw [Char.ofNat, dif_pos hvalid]
      rfl
    rw [Char.isUpper]
    have h90 : ¬((Char.ofNat (c.toNat + 32)).val ≤ 90) := by
      rw [uint32_le_iff]
      have h90v : (90 : UInt32).toNat = 90 := by decide
      rw [h90v]
      show ¬ (Char.ofNat (c.toNat + 32)).val.toNat ≤ 90
      rw [hval]
      omega
    simp [h90]
  · rw [if_neg h]
    rw [Char.isUpper]
    simp only [Char.toNat] at h
    rcases not_and_or.mp h with h1 | h1
    · have hx : ¬((65 : UInt32) ≤ c.val) := by
        rw [uint32_le_iff]
        have : (65 : UInt32).toNat = 65 := by decide
        rw [this]
        omega
      simp [hx]
    · have hx : ¬(c.val ≤ (90 : UInt32)) := by
        rw [uint32_le_iff]
        have : (90 : UInt32).toNat = 90 := by decide
        rw [this]
        omega
      simp [hx]

/-- When the exclusion and language guards pass, `Entry::matches` is its
search part. -/
theorem matches_eq_search_part (e : Entry) (whole_word all : Bool)
    (term ignored_names : List Str) (lang : Option Str)
    (hex : to_lowercase e.display_name ∉ ignored_names)
    (hlang : ∀ l, lang = some l → e.lang = l) :
    e.matches whole_word all term ignored_names lang =
      e.search_part whole_word all term := by
  have hc : ignored_names.contains (to_lowercase e.display_name) = false := by
    simp [List.contains, List.elem_eq_mem, hex]
  cases lang with
  | none =>
    show (if ignored_names.contains (to_lowercase e.display_name) then false
      else e.search_part whole_word all term) = e.search_part whole_word all term
    rw [hc]
    simp
  | some l =>
    have hl : e.lang = l := hlang l rfl
    show (if ignored_names.contains (to_lowercase e.display_name) then false
      else if e.lang ≠ l then false else e.search_part whole_word all term) =
        e.search_part whole_word all term
    rw [hc, hl]
    simp

/-- Whole-word matching for a non-excluded entry with no language filter:
success is the existence of a token of the lowercased, non-alphabetic-split
title equal to a search term. -/
theorem matches_whole_word_iff (e : Entry) (all : Bool)
    (term ignored_names : List Str)
    (hex : to_lowercase e.display_name ∉ ignored_names) :
    e.matches true all term ignored_names none = true ↔
      ∃ tok ∈ split_p (fun c => !c.isAlpha) (to_lowercase e.title), tok ∈ term := by
  rw [matches_eq_search_part e true all term ignored_names none hex
    (fun l hl => nomatch hl)]
  have hpart : e.search_part true all term =
      (split_p (fun c => !c.isAlpha) (to_lowercase e.title)).any
        (fun tok => term.any (fun t => t == tok)) := by
    simp [Entry.search_part]
  rw [hpart, List.any_eq_true]
  refine exists_congr fun tok => and_congr_right fun _ => ?_
  rw [List.any_eq_true]
  constructor
  · rintro ⟨t, ht, hbeq⟩
    rw [beq_iff_eq] at hbeq
    exact hbeq ▸ ht
  · intro h
    exact ⟨tok, h, beq_iff_eq.mpr rfl⟩

/-- C1: in whole-word mode, `matches` lowercases the title, splits it on
every non-alphabetic character and succeeds exactly when some resulting
token equals some search term; concretely, for an entry with title
`"abc 123 abc"`, a non-excluded name and no language filter, the term
list `["abc"]` matches and `["ab"]` does not. -/
theorem c1_whole_word_tokens (e : Entry) (all : Bool)
    (term ignored_names : List Str)
    (hex : to_lowercase e.display_name ∉ ignored_names) :
    (e.matches true all term ignored_names none = true ↔
      ∃ tok ∈ split_p (fun c => !c.isAlpha) (to_lowercase e.title), tok ∈ term) ∧
    (e.title = "abc 123 abc".data →
      e.matches true all ["abc".data] ignored_names none = true ∧
      e.matches true all ["ab".data] ignored_names none = false) := by
  refine ⟨matches_whole_word_iff e all term ignored_names hex, fun ht => ⟨?_, ?_⟩⟩
  · rw [matches_whole_word_iff e all ["abc".data] ignored_names hex, ht]
    decide
  · have h2 := matches_whole_word_iff e all ["ab".data] ignored_names hex
    rw [ht] at h2
    have hno : ¬ ∃ tok ∈ split_p (fun c => !c.isAlpha)
        (to_lowercase "abc 123 abc".data), tok ∈ [ "ab".data ] := by decide
    exact Bool.eq_false_iff.mpr (fun hb => hno (h2.mp hb))

/-- Witness for C1: a concrete non-excluded entry with the title of the
claim. -/
theorem c1_whole_word_tokens_witness :
    (Entry.mk "en".data "streamer".data "abc 123 abc".data 0 []).matches
        true false ["abc".data] ["bob".data] none = true ∧
    (Entry.mk "en".data "streamer".data "abc 123 abc".data 0 []).matches
        true false ["ab".data] ["bob".data] none = false :=
  (c1_whole_word_tokens (Entry.mk "en".data "streamer".data "abc 123 abc".data 0 [])
    false ["x".data] ["bob".data] (by decide)).2 rfl

/-- C3: an entry whose lowercased display name is in the exclusion list
never matches, whatever the whole-word flag, the match-all flag, the term
list and the language filter are. -/
theorem c3_excluded_never_matches (e : Entry) (whole_word all : Bool)
    (term ignored_names : List Str) (lang : Option Str)
    (hex : to_lowercase e.display_name ∈ ignored_names) :
    e.matches whole_word all term ignored_names lang = false := by
  have hc : ignored_names.contains (to_lowercase e.display_name) = true := by
    simp [List.contains, List.elem_eq_mem, hex]
  show (if ignored_names.contains (to_lowercase e.display_name) then false
    else match lang with
      | some l => if e.lang ≠ l then false else e.search_part whole_word all term
      | none => e.search_part whole_word all term) = false
  rw [hc]
  simp

/-- Witness for C3: an excluded name together with the match-everything
term list `[""]`. -/
theorem c3_excluded_never_matches_witness :
    (Entry.mk "en".data "Bob".data "anything".data 0 []).matches false false
      [[]] ["bob".data] none = false :=
  c3_excluded_never_matches _ false false [[]] ["bob".data] none (by decide)

/-- C4: in substring mode, for a non-excluded entry passing the language
filter, match-all requires every term to be a substring of the lowercased
title, otherwise some term suffices; the term list `[""]` always
matches. -/
theorem c4_substring_mode (e : Entry) (all : Bool)
    (term ignored_names : List Str) (lang : Option Str)
    (hex : to_lowercase e.display_name ∉ ignored_names)
    (hlang : ∀ l, lang = some l → e.lang = l) :
    (all = true → (e.matches false all term ignored_names lang = true ↔
      ∀ t ∈ term, IsSubstring t (to_lowercase e.title))) ∧
    (all = false → (e.matches false all term ignored_names lang = true ↔
      ∃ t ∈ term, IsSubstring t (to_lowercase e.title))) ∧
    (term = [[]] → e.matches false all term ignored_names lang = true) := by
  rw [matches_eq_search_part e false all term ignored_names lang hex hlang]
  refine ⟨fun hall => ?_, fun hall => ?_, fun hterm => ?_⟩
  · subst hall
    simp [Entry.search_part, List.all_eq_true, contains_str_iff]
  · subst hall
    simp [Entry.search_part, List.any_eq_true, contains_str_iff]
  · subst hterm
    have hc0 : contains_str (to_lowercase e.title) [] = true :=
      (contains_str_iff [] _).mpr ⟨[], to_lowercase e.title, by simp⟩
    cases all <;> simp [Entry.search_part, hc0]

/-- Witness for C4: the single empty term matches a concrete entry. -/
theorem c4_substring_mode_witness :
    (Entry.mk "en".data "streamer".data "Some Title".data 0 []).matches false false
      [[]] [] none = true :=
  (c4_substring_mode (Entry.mk "en".data "streamer".data "Some Title".data 0 [])
    false [[]] [] none (by decide) (fun l hl => nomatch hl)).2.2 rfl

/-- C10: whole-word terms are compared verbatim against tokens of the
lowercased title, so a term list whose every term contains an uppercase
letter never matches in whole-word mode, for any entry and any other
settings. -/
theorem c10_uppercase_term_never_matches (e : Entry) (all : Bool)
    (term ignored_names : List Str) (lang : Option Str)
    (hterm : ∀ t ∈ term, ∃ c ∈ t, c.isUpper = true) :
    e.matches true all term ignored_names lang = false := by
  have hsp : e.search_part true all term = false := by
    rw [Bool.eq_false_iff]
    intro hb
    have hany : (split_p (fun c => !c.isAlpha) (to_lowercase e.title)).any
        (fun tok => term.any (fun t => t == tok)) = true := by
      simpa [Entry.search_part] using hb
    rw [List.any_eq_true] at hany
    obtain ⟨tok, htok, hany2⟩ := hany
    rw [List.any_eq_true] at hany2
    obtain ⟨t, ht, hbeq⟩ := hany2
    rw [beq_iff_eq] at hbeq
    subst hbeq
    obtain ⟨c, hc, hupper⟩ := hterm _ ht
    have hmem : c ∈ to_lowercase e.title :=
      mem_of_mem_split_p _ c (to_lowercase e.title) _ htok hc
    rw [to_lowercase] at hmem
    obtain ⟨d, _, hd⟩ := List.mem_map.mp hmem
    rw [← hd, toLower_not_isUpper d] at hupper
    exact Bool.false_ne_true hupper
  by_cases hex : to_lowercase e.display_name ∈ ignored_names
  · have hc : ignored_names.contains (to_lowercase e.display_name) = true := by
      simp [List.contains, List.elem_eq_mem, hex]
    show (if ignored_names.contains (to_lowercase e.display_name) then false
      else match lang with
        | some l => if e.lang ≠ l then false else e.search_part true all term
        | none => e.search_part true all term) = false
    rw [hc]
    simp
  · cases lang with
    | none =>
      rw [matches_eq_search_part e true all term ignored_names none hex
        (fun l hl => nomatch hl)]
      exact hsp
    | some l =>
      by_cases hl : e.lang = l
      · rw [matches_eq_search_part e true all term ignored_names (some l) hex
          (fun l' hl' => by injection hl' with h; rw [← h]; exact hl)]
        exact hsp
      · have hc : ignored_names.contains (to_lowercase e.display_name) = false := by
          simp [List.contains, List.elem_eq_mem, hex]
        show (if ignored_names.contains (to_lowercase e.display_name) then false
          else if e.lang ≠ l then false else e.search_part true all term) = false
        rw [hc]
        simp [hl]

/-- Witness for C10: the uppercase term `"ABC"` fails against the title
`"ABC abc"` in whole-word mode. -/
theorem c10_uppercase_term_never_matches_witness :
    (Entry.mk "en".data "streamer".data "ABC abc".data 0 []).matches true false
      ["ABC".data] [] none = false :=
  c10_uppercase_term_never_matches (Entry.mk "en".data "streamer".data "ABC abc".data 0 [])
    false ["ABC".data] [] none (by decide)

/-- `update_widths` preserves the number of columns. -/
theorem update_widths_length :
    ∀ (ws : List Nat) (row : List Str) (k : Nat),
      (update_widths ws row k).length = ws.length := by
  intro ws
  induction ws with
  | nil =>
    intro row k
    cases k <;> rfl
  | cons w ws ih =>
    intro row k
    cases k with
    | zero => simp [update_widths]
    | succ k' =>
      cases row with
      | nil => rfl
      | cons c cs => simp [update_widths, ih]

/-- Pointwise description of `update_widths`: position `i` is maxed with
the cell's byte length exactly when `i` is below the take bound and the
row is long enough. -/
theorem update_widths_getD :
    ∀ (ws : List Nat) (i : Nat) (row : List Str) (k : Nat), i < ws.length →
      (update_widths ws row k).getD i 0 =
        if i < k ∧ i < row.length then
          max (ws.getD i 0) (str_len (row.getD i []))
        else ws.getD i 0 := by
  intro ws
  induction ws with
  | nil =>
    intro i row k h
    simp at h
  | cons w ws ih =>
    intro i row k h
    cases k with
    | zero => simp [update_widths]
    | succ k' =>
      cases row with
      | nil => simp [update_widths]
      | cons c cs =>
        cases i with
        | zero => simp [update_widths]
        | succ i' =>
          have h' : i' < ws.length := by simpa using h
          simp only [update_widths, List.getD_cons_succ, List.length_cons,
            Nat.succ_lt_succ_iff]
          exact ih i' cs k' h'

/-- `col_max` on the empty row list. -/
theorem col_max_nil (i : Nat) : col_max [] i = 0 := rfl

/-- `col_max` peels one row. -/
theorem col_max_cons (r : List Str) (rows : List (List Str)) (i : Nat) :
    col_max (r :: rows) i = max (str_len (r.getD i [])) (col_max rows i) := rfl

/-- Folded width accumulation on a tracked column. -/
theorem push_all_widths (i : Nat) (hi : i < 4) :
    ∀ (rows : List (List Str)) (t : Table 5), (∀ r ∈ rows, r.length = 5) →
      t.widths.length = 5 →
      (push_all t rows).widths.getD i 0 =
        max (t.widths.getD i 0) (col_max rows i) := by
  intro rows
  induction rows with
  | nil =>
    intro t h5 hw
    simp [push_all, col_max_nil]
  | cons r rs ih =>
    intro t h5 hw
    have hr : r.length = 5 := h5 r (List.mem_cons_self r rs)
    have hw' : (t.push r).widths.length = 5 := by
      show (update_widths t.widths r (5 - 1)).length = 5
      rw [update_widths_length, hw]
    have hstep : (t.push r).widths.getD i 0 =
        max (t.widths.getD i 0) (str_len (r.getD i [])) := by
      show (update_widths t.widths r (5 - 1)).getD i 0 = _
      rw [update_widths_getD t.widths i r (5 - 1) (by rw [hw]; omega)]
      rw [if_pos ⟨by omega, by rw [hr]; omega⟩]
    have hrec := ih (t.push r) (fun r' hr' => h5 r' (List.mem_cons_of_mem r hr')) hw'
    calc (push_all t (r :: rs)).widths.getD i 0
        = (push_all (t.push r) rs).widths.getD i 0 := rfl
      _ = max ((t.push r).widths.getD i 0) (col_max rs i) := hrec
      _ = max (max (t.widths.getD i 0) (str_len (r.getD i []))) (col_max rs i) := by
          rw [hstep]
      _ = max (t.widths.getD i 0) (col_max (r :: rs) i) := by
          rw [col_max_cons, Nat.max_assoc]

/-- The last column's width is never touched by pushes. -/
theorem push_all_widths_last :
    ∀ (rows : List (List Str)) (t : Table 5), t.widths.length = 5 →
      (push_all t rows).widths.getD 4 0 = t.widths.getD 4 0 := by
  intro rows
  induction rows with
  | nil =>
    intro t hw
    rfl
  | cons r rs ih =>
    intro t hw
    have hw' : (t.push r).widths.length = 5 := by
      show (update_widths t.widths r (5 - 1)).length = 5
      rw [update_widths_length, hw]
    have hstep : (t.push r).widths.getD 4 0 = t.widths.getD 4 0 := by
      show (update_widths t.widths r (5 - 1)).getD 4 0 = _
      rw [update_widths_getD t.widths 4 r (5 - 1) (by rw [hw]; omega)]
      rw [if_neg (by omega)]
    calc (push_all t (r :: rs)).widths.getD 4 0
        = (push_all (t.push r) rs).widths.getD 4 0 := rfl
      _ = (t.push r).widths.getD 4 0 := ih (t.push r) hw'
      _ = t.widths.getD 4 0 := hstep

/-- C2: after any sequence of pushed 5-cell rows, each tracked column
width (0–3) equals the maximum cell length of that column over all pushed
rows (`0` with no rows), and the width of the last column is never
updated by `push`. -/
theorem c2_width_invariant (rows : List (List Str)) (h5 : ∀ r ∈ rows, r.length = 5)
    (i : Nat) (hi : i < 4) :
    (push_all (Table.new 5) rows).widths.getD i 0 = col_max rows i ∧
    (push_all (Table.new 5) rows).widths.getD 4 0 = 0 := by
  have hw : (Table.new 5).widths.length = 5 := by
    show (List.replicate 5 0).length = 5
    simp
  have hz : ∀ j, (Table.new 5).widths.getD j 0 = 0 := by
    intro j
    show (List.replicate 5 0).getD j 0 = 0
    rcases j with _ | _ | _ | _ | _ | n <;> rfl
  constructor
  · rw [push_all_widths i hi rows (Table.new 5) h5 hw, hz i]
    simp
  · rw [push_all_widths_last rows (Table.new 5) hw, hz 4]

/-- Witness for C2: two concrete rows; column 0 sees lengths 2 and 1. -/
theorem c2_width_invariant_witness :
    (push_all (Table.new 5) [["ab".data, "c".data, [], [], "zzzz".data],
      ["a".data, "ddd".data, [], [], []]]).widths.getD 0 0 = 2 ∧
    (push_all (Table.new 5) [["ab".data, "c".data, [], [], "zzzz".data],
      ["a".data, "ddd".data, [], [], []]]).widths.getD 4 0 = 0 := by
  have h := c2_width_invariant [["ab".data, "c".data, [], [], "zzzz".data],
    ["a".data, "ddd".data, [], [], []]] (by decide) 0 (by decide)
  exact ⟨h.1.trans (by decide), h.2⟩

/-- C8: a cell shorter than the column width is padded with spaces on the
side(s) of its alignment so that its rendered character length equals the
column width; the run's table is left-aligned except for the right-aligned
viewer-count and duration columns; the last column is emitted as an
unpadded suffix of its line. -/
theorem c8_alignment_rendering :
    (∀ (w : Nat) (s : Str), s.length < w →
      render_cell Align.Right w s = List.replicate (w - s.length) ' ' ++ s ∧
      (render_cell Align.Right w s).length = w) ∧
    (∀ (w : Nat) (s : Str), s.length < w →
      render_cell Align.Left w s = s ++ List.replicate (w - s.length) ' ' ∧
      (render_cell Align.Left w s).length = w) ∧
    (∀ (w : Nat) (s : Str), s.length < w →
      render_cell Align.Center w s =
        List.replicate ((w - s.length) / 2) ' ' ++ s ++
          List.replicate ((w - s.length) - (w - s.length) / 2) ' ' ∧
      (render_cell Align.Center w s).length = w) ∧
    run_table_init.align =
      [Align.Left, Align.Left, Align.Right, Align.Right, Align.Left] ∧
    (∀ (t : Table 5) (row : List Str), row ∈ t.rows →
      ∃ pre : Str, render_row 5 t.align t.widths row = pre ++ row.getD 4 []) := by
  refine ⟨?_, ?_, ?_, by decide, ?_⟩
  · intro w s h
    have hnot : ¬ (w ≤ s.length) := Nat.not_le.mpr h
    refine ⟨by simp [render_cell, hnot], ?_⟩
    simp only [render_cell, if_neg hnot, List.length_append, List.length_replicate]
    omega
  · intro w s h
    have hnot : ¬ (w ≤ s.length) := Nat.not_le.mpr h
    refine ⟨by simp [render_cell, hnot], ?_⟩
    simp only [render_cell, if_neg hnot, List.length_append, List.length_replicate]
    omega
  · intro w s h
    have hnot : ¬ (w ≤ s.length) := Nat.not_le.mpr h
    refine ⟨by simp [render_cell, hnot], ?_⟩
    simp only [render_cell, if_neg hnot, List.length_append, List.length_replicate]
    omega
  · intro t row hrow
    exact ⟨_, rfl⟩

/-- Witness for C8 on the cell `"ab"` and width `5`. -/
theorem c8_alignment_rendering_witness :
    render_cell Align.Right 5 "ab".data = "   ab".data ∧
    (render_cell Align.Right 5 "ab".data).length = 5 ∧
    render_cell Align.Left 5 "ab".data = "ab   ".data ∧
    render_cell Align.Center 5 "ab".data = " ab  ".data ∧
    run_table_init.align =
      [Align.Left, Align.Left, Align.Right, Align.Right, Align.Left] := by
  have h := c8_alignment_rendering
  have hr := h.1 5 "ab".data (by decide)
  have hl := h.2.1 5 "ab".data (by decide)
  have hc := h.2.2.1 5 "ab".data (by decide)
  exact ⟨hr.1.trans (by decide), hr.2, hl.1.trans (by decide),
    hc.1.trans (by decide), h.2.2.2.1⟩

/-- A string has at least as many UTF-8 bytes as characters. -/
theorem length_le_str_len (s : Str) : s.length ≤ str_len s := by
  induction s with
  | nil => simp [str_len]
  | cons c cs ih =>
    have hpos := Char.utf8Size_pos c
    have hs : str_len (c :: cs) = c.utf8Size + str_len cs := by
      simp [str_len]
    rw [hs, List.length_cons]
    omega

/-- Every row's cell is bounded by the column maximum. -/
theorem str_len_le_col_max (rows : List (List Str)) (r : List Str)
    (hr : r ∈ rows) (i : Nat) :
    str_len (r.getD i []) ≤ col_max rows i := by
  induction rows with
  | nil => simp at hr
  | cons a as ih =>
    rcases List.mem_cons.mp hr with rfl | h
    · rw [col_max_cons]
      exact Nat.le_max_left _ _
    · rw [col_max_cons]
      exact le_trans (ih h) (Nat.le_max_right _ _)

/-- A cell no longer than the width always renders at exactly the
width. -/
theorem render_cell_length (a : Align) (w : Nat) (s : Str)
    (h : s.length ≤ w) : (render_cell a w s).length = w := by
  by_cases hle : w ≤ s.length
  · rw [render_cell.eq_def, if_pos hle]
    omega
  · cases a <;>
      simp only [render_cell, if_neg hle, List.length_append,
        List.length_replicate] <;>
      omega

/-- The widths of the freshly created table are zero. -/
theorem new_table_widths_getD (j : Nat) : (Table.new 5).widths.getD j 0 = 0 := by
  show (List.replicate 5 0).getD j 0 = 0
  rcases j with _ | _ | _ | _ | _ | n <;> rfl

/-- Tracked widths after pushing into a fresh table are the column
maxima. -/
theorem push_all_new_widths (rows : List (List Str))
    (h5 : ∀ r ∈ rows, r.length = 5) (i : Nat) (hi : i < 4) :
    (push_all (Table.new 5) rows).widths.getD i 0 = col_max rows i := by
  have hw : (Table.new 5).widths.length = 5 := by
    show (List.replicate 5 0).length = 5
    simp
  rw [push_all_widths i hi rows (Table.new 5) h5 hw, new_table_widths_getD i]
  simp

/-- C9 counterexample: the length unit of `push` (UTF-8 bytes, `str_len`)
differs from the unit `print` pads with (characters, `List.length`): the
one-character cell `"é"` is measured as 2 by `push`, and the cell padded
to that width renders with 3 bytes, not 2. -/
theorem c9_push_print_unit_counterexample :
    str_len "é".data = 2 ∧ ("é".data : Str).length = 1 ∧
    ((Table.new 5).push ["é".data, [], [], [], []]).widths.getD 0 0 = 2 ∧
    str_len (render_cell Align.Left 2 "é".data) ≠
      ((Table.new 5).push ["é".data, [], [], [], []]).widths.getD 0 0 := by
  decide

/-- C9 (amended): `push` measures cell widths in UTF-8 bytes while
`print` pads counting characters; the units differ on multi-byte
characters, but since a cell's character count is at most its byte count,
which is at most the tracked column width, every padded cell of a tracked
column still renders with character length exactly the column width. -/
theorem c9_amended_padded_length (rows : List (List Str))
    (h5 : ∀ r ∈ rows, r.length = 5) (i : Nat) (hi : i < 4)
    (row : List Str) (hrow : row ∈ rows) (a : Align) :
    (render_cell a ((push_all (Table.new 5) rows).widths.getD i 0)
        (row.getD i [])).length =
      (push_all (Table.new 5) rows).widths.getD i 0 := by
  apply render_cell_length
  calc (row.getD i []).length ≤ str_len (row.getD i []) := length_le_str_len _
    _ ≤ col_max rows i := str_len_le_col_max rows row hrow i
    _ = (push_all (Table.new 5) rows).widths.getD i 0 :=
        (push_all_new_widths rows h5 i hi).symm

/-- Witness for the amended C9 on a multi-byte row. -/
theorem c9_amended_padded_length_witness :
    (render_cell Align.Left
      ((push_all (Table.new 5) [["éé".data, [], [], [], []],
        ["abcd".data, [], [], [], []]]).widths.getD 0 0)
      ((["éé".data, [], [], [], []] : List Str).getD 0 [])).length =
    (push_all (Table.new 5) [["éé".data, [], [], [], []],
      ["abcd".data, [], [], [], []]]).widths.getD 0 0 :=
  c9_amended_padded_length [["éé".data, [], [], [], []],
    ["abcd".data, [], [], [], []]] (by decide) 0 (by decide)
    ["éé".data, [], [], [], []] (by decide) Align.Left

/-- `format02` on a natural number is the zero-padded two-digit
rendering. -/
theorem format02_ofNat (k : Nat) : format02 (Int.ofNat k) = pad2 k := by
  unfold format02 pad2
  have h0 : ¬ ((Int.ofNat k) < 0) := Int.not_lt.mpr (Int.ofNat_nonneg k)
  rw [if_neg h0]
  simp [Int.natAbs_ofNat]

/-- C5: for a start timestamp that parses, `elapsed = now - val ≥ 0`
seconds render as the zero-padded total elapsed hours (not wrapped modulo
24), a colon, and the elapsed minutes modulo 60; an unparsable timestamp
renders as the empty string. -/
theorem c5_duration_format (now val : Int) (h : 0 ≤ now - val) :
    to_instant (some val) now =
      pad2 (((now - val).toNat / 60) / 60) ++ [':'] ++
        pad2 (((now - val).toNat / 60) % 60) ∧
    to_instant none now = [] := by
  constructor
  · obtain ⟨k, hk⟩ : ∃ k : Nat, now - val = Int.ofNat k :=
      ⟨(now - val).toNat, (Int.toNat_of_nonneg h).symm⟩
    show format02 ((now - val).tdiv 3600) ++ [':'] ++
        format02 (((now - val).tdiv 60).tmod 60) = _
    rw [hk]
    have h1 : (Int.ofNat k).tdiv 3600 = Int.ofNat (k / 3600) := rfl
    have h2 : ((Int.ofNat k).tdiv 60).tmod 60 = Int.ofNat ((k / 60) % 60) := rfl
    have h3 : (Int.ofNat k).toNat = k := rfl
    rw [h1, h2, h3, format02_ofNat, format02_ofNat, Nat.div_div_eq_div_mul]
  · rfl

/-- Witness for C5: a start exactly 90 minutes before now renders as
`"01:30"`. -/
theorem c5_duration_format_witness :
    to_instant (some 0) 5400 = "01:30".data ∧ to_instant none 5400 = [] := by
  have h := c5_duration_format 5400 0 (by decide)
  exact ⟨h.1.trans (by decide), h.2⟩

/-- Pushing a row grows the table by one row. -/
theorem push_len {n : Nat} (t : Table n) (row : List Str) :
    (t.push row).len = t.len + 1 := by
  show (t.rows ++ [row]).length = t.rows.length + 1
  simp

/-- Processing a page's entries adds one row per accepted entry. -/
theorem process_entries_len (whole_word all : Bool) (term ignored : List Str)
    (lang : Option Str) :
    ∀ (entries : List Entry) (t : Table 5),
      (process_entries whole_word all term ignored lang entries t).len =
        t.len + (entries.filter
          (fun e => e.matches whole_word all term ignored lang)).length := by
  intro entries
  induction entries with
  | nil =>
    intro t
    simp [process_entries]
  | cons e es ih =>
    intro t
    show (process_entries whole_word all term ignored lang es
        (if e.matches whole_word all term ignored lang then t.push e.format_row
         else t)).len = _
    rw [ih]
    by_cases hm : e.matches whole_word all term ignored lang = true
    · rw [if_pos hm, push_len]
      simp [List.filter_cons, hm]
      omega
    · rw [if_neg hm]
      simp only [Bool.not_eq_true] at hm
      simp [List.filter_cons, hm]

/-- The pagination loop on a page sequence whose last cursor is absent
and whose earlier cursors are all present: it consumes every page,
accumulates all entry counts, and the final table has one row per
accepted entry. -/
theorem run_loop_spec (whole_word all : Bool) (term ignored : List Str)
    (lang : Option Str) :
    ∀ (pages : List Page) (t : Table 5) (total : Nat) (hne : pages ≠ [])
      (_ : (pages.getLast hne).cursor = none)
      (_ : ∀ p ∈ pages.dropLast, p.cursor ≠ none),
      ∃ tb : Table 5,
        run_loop whole_word all term ignored lang pages t total =
          some (pages.length, total + total_entries pages, tb) ∧
        tb.len = t.len +
          matched_entries whole_word all term ignored lang pages := by
  intro pages
  induction pages with
  | nil =>
    intro t total hne
    exact absurd rfl hne
  | cons p rest ih =>
    intro t total hne hlast hmid
    cases rest with
    | nil =>
      have hcur : p.cursor = none := hlast
      refine ⟨process_entries whole_word all term ignored lang p.entries t, ?_, ?_⟩
      · show (match p.cursor with
          | none => some (1, total + p.entries.length,
              process_entries whole_word all term ignored lang p.entries t)
          | some _ =>
            match run_loop whole_word all term ignored lang []
                (process_entries whole_word all term ignored lang p.entries t)
                (total + p.entries.length) with
            | none => none
            | some (c, t', tb) => some (c + 1, t', tb)) =
          some ([p].length, total + total_entries [p],
            process_entries whole_word all term ignored lang p.entries t)
        rw [hcur]
        show some (1, total + p.entries.length, _) =
          some (1, total + (p.entries.length + 0), _)
        rw [Nat.add_zero]
      · rw [process_entries_len]
        show t.len + _ = t.len + (_ + 0)
        rw [Nat.add_zero]
    | cons q rest' =>
      have hcur : p.cursor ≠ none := by
        apply hmid
        rw [List.dropLast_cons₂]
        exact List.mem_cons_self p _
      obtain ⟨c, hc⟩ := Option.ne_none_iff_exists'.mp hcur
      have hlast' : ((q :: rest').getLast (List.cons_ne_nil q rest')).cursor = none := by
        rw [← List.getLast_cons (List.cons_ne_nil q rest')]
        exact hlast
      have hmid' : ∀ x ∈ (q :: rest').dropLast, x.cursor ≠ none := by
        intro x hx
        apply hmid
        rw [List.dropLast_cons₂]
        exact List.mem_cons_of_mem p hx
      obtain ⟨tb, heq, hlen⟩ := ih
        (process_entries whole_word all term ignored lang p.entries t)
        (total + p.entries.length) (List.cons_ne_nil q rest') hlast' hmid'
      refine ⟨tb, ?_, ?_⟩
      · show (match p.cursor with
          | none => some (1, total + p.entries.length,
              process_entries whole_word all term ignored lang p.entries t)
          | some _ =>
            match run_loop whole_word all term ignored lang (q :: rest')
                (process_entries whole_word all term ignored lang p.entries t)
                (total + p.entries.length) with
            | none => none
            | some (c, t', tb) => some (c + 1, t', tb)) = _
        rw [hc, heq]
        show some ((q :: rest').length + 1,
            total + p.entries.length + total_entries (q :: rest'), tb) =
          some ((p :: q :: rest').length,
            total + total_entries (p :: q :: rest'), tb)
        have h1 : (p :: q :: rest').length = (q :: rest').length + 1 := rfl
        have h2 : total + p.entries.length + total_entries (q :: rest') =
            total + total_entries (p :: q :: rest') := by
          show _ = total + (p.entries.length + total_entries (q :: rest'))
          omega
        rw [h1, h2]
      · rw [hlen, process_entries_len]
        have hm : matched_entries whole_word all term ignored lang (p :: q :: rest') =
            (p.entries.filter
              (fun e => e.matches whole_word all term ignored lang)).length +
            matched_entries whole_word all term ignored lang (q :: rest') := rfl
        rw [hm]
        omega

/-- C6 counterexample: a one-page sequence whose last (only) page carries
the EMPTY-STRING cursor `some ""`.  The loop does not terminate after
consuming that page: it issues a further listing request (the mock page
list is exhausted, result `none`), instead of stopping with
`some (1, total, table)` as the claim requires for an "absent or empty"
cursor. -/
theorem c6_empty_cursor_counterexample :
    run_loop false false [[]] [] none [{ entries := [], cursor := some [] }]
      run_table_init 0 = none := rfl

/-- C6 (amended): for every non-empty page sequence whose last page has
an ABSENT cursor (`none`; an empty-string cursor counts as present and
keeps the loop going) and whose earlier pages all have present cursors,
the loop terminates after consuming exactly all pages, the total is the
sum of the pages' entry counts, and the program prints
`Done (<matched>/<total>)` where `matched` counts the entries accepted by
the filter. -/
theorem c6_pagination_termination (whole_word all : Bool)
    (term ignored : List Str) (lang : Option Str) (pages : List Page)
    (hne : pages ≠ [])
    (hlast : (pages.getLast hne).cursor = none)
    (hmid : ∀ p ∈ pages.dropLast, p.cursor ≠ none) :
    ∃ tb : Table 5,
      run_loop whole_word all term ignored lang pages run_table_init 0 =
        some (pages.length, total_entries pages, tb) ∧
      tb.len = matched_entries whole_word all term ignored lang pages ∧
      run_result whole_word all term ignored lang pages =
        some (done_line
          (matched_entries whole_word all term ignored lang pages)
          (total_entries pages)) := by
  obtain ⟨tb, heq, hlen⟩ := run_loop_spec whole_word all term ignored lang
    pages run_table_init 0 hne hlast hmid
  have h0 : run_table_init.len = 0 := rfl
  rw [h0, Nat.zero_add] at hlen
  rw [Nat.zero_add] at heq
  refine ⟨tb, heq, hlen, ?_⟩
  rw [run_result, heq, Option.map_some', hlen]

/-- Witness for C6: two pages, the first with a present cursor, the last
with an absent one; one entry in total, accepted by the empty term. -/
theorem c6_pagination_termination_witness :
    ∃ tb : Table 5,
      run_loop false false [[]] [] none
        [{ entries := [Entry.mk "en".data "s".data "t".data 0 []],
           cursor := some "c".data },
         { entries := [], cursor := none }] run_table_init 0 =
        some (2, 1, tb) ∧
      tb.len = 1 ∧
      run_result false false [[]] [] none
        [{ entries := [Entry.mk "en".data "s".data "t".data 0 []],
           cursor := some "c".data },
         { entries := [], cursor := none }] =
        some ("Done (1/1)".data) := by
  obtain ⟨tb, h1, h2, h3⟩ := c6_pagination_termination false false [[]] [] none
    [{ entries := [Entry.mk "en".data "s".data "t".data 0 []],
       cursor := some "c".data },
     { entries := [], cursor := none }]
    (by decide) (by rfl) (by decide)
  refine ⟨tb, ?_, ?_, ?_⟩
  · exact h1
  · exact h2.trans (by decide)
  · exact h3.trans (by decide)

/-- A failing page makes the modelled `fetch_streams` return an error. -/
theorem fetch_streams_model_bad (r : Except Unit Json) (hb : bad_page r) :
    ∃ e, fetch_streams_model r = Except.error e := by
  rcases hb with ⟨u, rfl⟩ | ⟨json, rfl, hdata⟩
  · exact ⟨AppError.FetchStreams, rfl⟩
  · refine ⟨AppError.ParseJson, ?_⟩
    have hunfold : fetch_streams_model (Except.ok json) =
        (match json.get "data".data with
          | some (Json.arr a) =>
            Except.ok (a, ((json.get "pagination".data).bind
              (fun v => v.get "cursor".data)).bind Json.as_str)
          | _ => Except.error AppError.ParseJson) := rfl
    rw [hunfold]
    cases hd : json.get "data".data with
    | none => rfl
    | some v =>
      cases v with
      | arr a => exact absurd hd (hdata a)
      | null => rfl
      | bool b => rfl
      | num n => rfl
      | str s => rfl
      | obj fields => rfl

/-- One successful middle page advances `run_resp` by one dot and one
recursive call. -/
theorem run_resp_good_step (parse : Str → Option Int) (now : Int)
    (whole_word all : Bool) (term ignored : List Str) (lang : Option Str)
    (r : Except Unit Json) (more : List (Except Unit Json)) (t : Table 5)
    (total : Nat) (records : List Json) (cursor : Str) (entries : List Entry)
    (hfetch : fetch_streams_model r = Except.ok (records, some cursor))
    (hentries : records.mapM (entry_from parse now) = some entries) :
    run_resp parse now whole_word all term ignored lang (r :: more) t total =
      RunOutcome.prepend [".".data]
        (run_resp parse now whole_word all term ignored lang more
          (process_entries whole_word all term ignored lang entries t)
          (total + entries.length)) := by
  show (match fetch_streams_model r with
    | Except.error e => RunOutcome.fail e []
    | Except.ok (records, cursor) =>
      match records.mapM (entry_from parse now) with
      | none => RunOutcome.panic []
      | some entries =>
        match cursor with
        | none =>
          RunOutcome.ok ([".".data] ++
            (process_entries whole_word all term ignored lang entries t).print ++
            [done_line
              (process_entries whole_word all term ignored lang entries t).len
              (total + entries.length)])
        | some _ =>
          RunOutcome.prepend [".".data]
            (run_resp parse now whole_word all term ignored lang more
              (process_entries whole_word all term ignored lang entries t)
              (total + entries.length))) = _
  rw [hfetch]
  show (match records.mapM (entry_from parse now) with
    | none => RunOutcome.panic []
    | some entries =>
      match some cursor with
      | none =>
        RunOutcome.ok ([".".data] ++
          (process_entries whole_word all term ignored lang entries t).print ++
          [done_line
            (process_entries whole_word all term ignored lang entries t).len
            (total + entries.length)])
      | some _ =>
        RunOutcome.prepend [".".data]
          (run_resp parse now whole_word all term ignored lang more
            (process_entries whole_word all term ignored lang entries t)
            (total + entries.length))) = _
  rw [hentries]

/-- A failing first page makes `run_resp` fail with no output. -/
theorem run_resp_bad_head (parse : Str → Option Int) (now : Int)
    (whole_word all : Bool) (term ignored : List Str) (lang : Option Str)
    (bad : Except Unit Json) (more : List (Except Unit Json)) (t : Table 5)
    (total : Nat) (e : AppError)
    (he : fetch_streams_model bad = Except.error e) :
    run_resp parse now whole_word all term ignored lang (bad :: more) t total =
      RunOutcome.fail e [] := by
  show (match fetch_streams_model bad with
    | Except.error e => RunOutcome.fail e []
    | Except.ok (records, cursor) =>
      match records.mapM (entry_from parse now) with
      | none => RunOutcome.panic []
      | some entries =>
        match cursor with
        | none =>
          RunOutcome.ok ([".".data] ++
            (process_entries whole_word all term ignored lang entries t).print ++
            [done_line
              (process_entries whole_word all term ignored lang entries t).len
              (total + entries.length)])
        | some _ =>
          RunOutcome.prepend [".".data]
            (run_resp parse now whole_word all term ignored lang more
              (process_entries whole_word all term ignored lang entries t)
              (total + entries.length))) = _
  rw [he]

/-- C7: if any page's listing request fails or its response's `data`
field is missing or not a JSON array, then — after any number of
well-behaved earlier pages — the whole fetch aborts with an error before
producing anything of the failing page, and the only output is the
per-page progress dots: the table and the summary line are never
printed. -/
theorem c7_error_aborts (parse : Str → Option Int) (now : Int)
    (whole_word all : Bool) (term ignored : List Str) (lang : Option Str) :
    ∀ (good : List (Except Unit Json)) (bad : Except Unit Json)
      (rest : List (Except Unit Json)) (t : Table 5) (total : Nat),
      (∀ r ∈ good, mid_page_ok parse now r) → bad_page bad →
      ∃ e, run_resp parse now whole_word all term ignored lang
          (good ++ bad :: rest) t total =
        RunOutcome.fail e (List.replicate good.length ".".data) := by
  intro good
  induction good with
  | nil =>
    intro bad rest t total hg hb
    obtain ⟨e, he⟩ := fetch_streams_model_bad bad hb
    exact ⟨e, run_resp_bad_head parse now whole_word all term ignored lang
      bad rest t total e he⟩
  | cons r good ih =>
    intro bad rest t total hg hb
    obtain ⟨records, cursor, hfetch, hmapM⟩ := hg r (List.mem_cons_self r good)
    obtain ⟨entries, hentries⟩ := Option.isSome_iff_exists.mp hmapM
    obtain ⟨e, he⟩ := ih bad rest
      (process_entries whole_word all term ignored lang entries t)
      (total + entries.length)
      (fun r' hr' => hg r' (List.mem_cons_of_mem r hr')) hb
    refine ⟨e, ?_⟩
    rw [List.cons_append, run_resp_good_step parse now whole_word all term
      ignored lang r (good ++ bad :: rest) t total records cursor entries
      hfetch hentries, he]
    have hrep : ([".".data] ++ List.replicate good.length ".".data : List Str) =
        List.replicate (r :: good).length ".".data := by
      simp [List.replicate_succ]
    show RunOutcome.fail e ([".".data] ++ List.replicate good.length ".".data) = _
    rw [hrep]

/-- Witness for C7: one well-formed page (empty `data` array, present
cursor) followed by a response whose `data` field is missing; the run
fails, having printed only one progress dot. -/
theorem c7_error_aborts_witness :
    ∃ e, run_resp (fun _ => none) 0 false false [[]] [] none
      [Except.ok (Json.obj [("data".data, Json.arr []),
        ("pagination".data, Json.obj [("cursor".data, Json.str "c".data)])]),
       Except.ok (Json.obj [])] run_table_init 0 =
      RunOutcome.fail e (List.replicate 1 ".".data) := by
  refine c7_error_aborts (fun _ => none) 0 false false [[]] [] none
    [Except.ok (Json.obj [("data".data, Json.arr []),
      ("pagination".data, Json.obj [("cursor".data, Json.str "c".data)])])]
    (Except.ok (Json.obj [])) [] run_table_init 0 ?_ ?_
  · intro r hr
    rw [List.mem_singleton] at hr
    subst hr
    exact ⟨[], "c".data, rfl, rfl⟩
  · exact Or.inr ⟨Json.obj [], rfl, fun a h => Option.noConfusion h⟩
